import Mathlib

/-!
Verification development for the dataset-evaluation engine in
`langchain/client/langchain.py` (class `LangChainPlusClient`).

The Python source is shallowly embedded as follows.

* `Example` models the dataset example record: an opaque identifier and an
  input payload.  The engine only reads the keys `prompt` and `messages` of
  the payload dictionary, so the payload is modelled as two optional fields.
* `LangChainTracer` models the tracer resource: the only field the engine
  mutates is `example_id`; the session name is carried along unchanged.
* A language model is modelled by its runtime-type tag (`BaseLLM`,
  `BaseChatModel`, or some other subclass of `BaseLanguageModel`) together
  with its two generation entry points.  A Python call that may raise is
  modelled as a function into `Except String`, the error carrying the
  exception message text.
* `MODEL_OR_CHAIN_FACTORY = Union[Callable[[], Chain], BaseLanguageModel]`
  becomes the two-constructor type `LlmOrChainFactory`.  A zero-argument
  chain factory is modelled as a function of a fresh allocation seed, so that
  object identity of the constructed chain instances is observable; the
  evaluator threads the seed counter and hands each factory call a fresh
  seed.  A factory honouring the freshness contract of the spec returns a
  chain whose `instanceId` equals the seed it was given.
* Invocations are recorded in an event trace (`Event`), which makes the
  dispatch decisions and the per-repetition factory calls observable.
* `asyncio` scheduling for `_gather_with_concurrency` is modelled as a
  small-step transition system (`Step`) further below.
-/

/-- One dataset example: opaque identifier plus input payload.  The engine
reads only the `prompt` and `messages` keys of `example.inputs`. -/
structure Inputs where
  prompt : Option String
  messages : Option (List String)
deriving DecidableEq, Repr

structure Example where
  id : String
  inputs : Inputs
deriving DecidableEq, Repr

/-- The tracer resource.  `example_id` is the mutable example tag that
`run_llm_or_chain` / `_arun_llm_or_chain` save, set and restore;
`session_name` is never mutated by the engine. -/
structure LangChainTracer where
  session_name : String
  example_id : Option String
deriving DecidableEq, Repr

/-- Runtime type tag of a `BaseLanguageModel`, as tested by the two
`isinstance` checks in `run_llm` / `_arun_llm`. -/
inductive ModelKind where
  | baseLLM
  | baseChatModel
  | otherModel
deriving DecidableEq, Repr

/-- A language model: its runtime-type tag and its two generation entry
points (`generate` on a prompt list, `generate` on a message list).  A call
that raises is an `Except.error` carrying the message text. -/
structure LanguageModel (α : Type) where
  kind : ModelKind
  genPrompt : String → Except String α
  genMessages : List String → Except String α

/-- A chain instance produced by the factory.  `instanceId` models Python
object identity; `run` models `chain.run` / `chain.arun` on the example
inputs (raising = `Except.error`). -/
structure Chain (α : Type) where
  instanceId : Nat
  run : Inputs → Except String α

/-- `MODEL_OR_CHAIN_FACTORY`: either a language model used directly, or a
zero-argument chain factory.  The factory receives the fresh allocation seed
(modelling the identity of the object it would construct) and may itself
raise. -/
inductive LlmOrChainFactory (α : Type) where
  | languageModel : LanguageModel α → LlmOrChainFactory α
  | chainFactory : (Nat → Except String (Chain α)) → LlmOrChainFactory α

/-- One slot of the per-example output sequence: either the target call
succeeded with its payload, or it raised and the handler appended the
failure marker dictionary with the error message text. -/
inductive Outcome (α : Type) where
  | success : α → Outcome α
  | failureMarker : String → Outcome α
deriving DecidableEq, Repr

/-- Observable invocation events, used to state dispatch and freshness
properties.  `factoryCall s` records a call of the chain factory with fresh
seed `s`; `chainRun i` records an invocation of the chain instance with
identity `i`. -/
inductive Event where
  | llmGenerate
  | chatGenerate
  | factoryCall : Nat → Event
  | chainRun : Nat → Event
deriving DecidableEq, Repr

/-- Embedding of the static method `run_llm` (sync variant): dispatch on the
runtime type of the model, check the required input key, call the matching
generation entry point.  Returns the result (or the raised error message)
together with the invocation events.  The interpolated repr of the inputs in
the Python messages is abstracted away. -/
def run_llm {α : Type} (llm : LanguageModel α) (inputs : Inputs) :
    Except String α × List Event :=
  match llm.kind with
  | ModelKind.baseLLM =>
    match inputs.prompt with
    | none => (Except.error "LLM Run must contain prompt key.", [])
    | some p => (llm.genPrompt p, [Event.llmGenerate])
  | ModelKind.baseChatModel =>
    match inputs.messages with
    | none => (Except.error "Chat Model Run must contain messages key.", [])
    | some ms => (llm.genMessages ms, [Event.chatGenerate])
  | ModelKind.otherModel => (Except.error "Unsupported LLM type", [])

/-- Embedding of the static method `_arun_llm` (async variant).  Identical
control flow to `run_llm`; only the message texts differ in the source. -/
def arun_llm {α : Type} (llm : LanguageModel α) (inputs : Inputs) :
    Except String α × List Event :=
  match llm.kind with
  | ModelKind.baseLLM =>
    match inputs.prompt with
    | none => (Except.error "LLM Run requires prompt input.", [])
    | some p => (llm.genPrompt p, [Event.llmGenerate])
  | ModelKind.baseChatModel =>
    match inputs.messages with
    | none => (Except.error "Chat Run requires messages input.", [])
    | some ms => (llm.genMessages ms, [Event.chatGenerate])
  | ModelKind.otherModel => (Except.error "Unsupported LLM type", [])

/-- The body of one iteration of the repetition loop of
`run_llm_or_chain` / `_arun_llm_or_chain`: run the model (via the given
sync or async `run_llm` embedding) or construct and run a fresh chain; any
raise is caught and converted to the failure marker.  Returns the recorded
outcome, the next allocation seed, and the invocation events. -/
def runOneRep {α : Type}
    (llmRunner : LanguageModel α → Inputs → Except String α × List Event)
    (target : LlmOrChainFactory α) (inputs : Inputs) (ctr : Nat) :
    Outcome α × Nat × List Event :=
  match target with
  | LlmOrChainFactory.languageModel llm =>
    match llmRunner llm inputs with
    | (Except.ok out, evs) => (Outcome.success out, ctr, evs)
    | (Except.error e, evs) => (Outcome.failureMarker e, ctr, evs)
  | LlmOrChainFactory.chainFactory mk =>
    match mk ctr with
    | Except.ok chain =>
      match chain.run inputs with
      | Except.ok out =>
          (Outcome.success out, ctr + 1,
           [Event.factoryCall ctr, Event.chainRun chain.instanceId])
      | Except.error e =>
          (Outcome.failureMarker e, ctr + 1,
           [Event.factoryCall ctr, Event.chainRun chain.instanceId])
    | Except.error e =>
        (Outcome.failureMarker e, ctr + 1, [Event.factoryCall ctr])

/-- The repetition loop `for _ in range(n_repetitions)` of
`run_llm_or_chain` / `_arun_llm_or_chain`: outcomes are appended in order,
the allocation seed is threaded through, events are concatenated. -/
def runLoop {α : Type}
    (llmRunner : LanguageModel α → Inputs → Except String α × List Event)
    (target : LlmOrChainFactory α) (inputs : Inputs) :
    Nat → Nat → List (Outcome α) × Nat × List Event
  | 0, c => ([], c, [])
  | Nat.succ k, c =>
    match runOneRep llmRunner target inputs c with
    | (o, c1, evs) =>
      match runLoop llmRunner target inputs k c1 with
      | (os, c2, evs2) => (o :: os, c2, evs ++ evs2)

/-- Embedding of the static method `run_llm_or_chain` (sync variant): save
the tracer's example tag, set it to this example's id, run the repetition
loop with every raise caught at the repetition boundary, restore the tag,
return the accumulated outputs.  The extra seed argument and the returned
events are the instrumentation described in the module docstring. -/
def run_llm_or_chain {α : Type} (ex : Example) (tracer : LangChainTracer)
    (target : LlmOrChainFactory α) (n_repetitions : Nat) (ctr : Nat) :
    List (Outcome α) × LangChainTracer × Nat × List Event :=
  let previous_example_id := tracer.example_id
  let tracer1 : LangChainTracer := { tracer with example_id := some ex.id }
  match runLoop run_llm target ex.inputs n_repetitions ctr with
  | (outputs, c2, evs) =>
    (outputs, { tracer1 with example_id := previous_example_id }, c2, evs)

/-- Embedding of the static method `_arun_llm_or_chain` (async variant).
Identical control flow to `run_llm_or_chain` with `_arun_llm` in place of
`run_llm` and `chain.arun` in place of `chain.run` (the chain entry point is
the same function of the inputs in this embedding). -/
def arun_llm_or_chain {α : Type} (ex : Example) (tracer : LangChainTracer)
    (target : LlmOrChainFactory α) (n_repetitions : Nat) (ctr : Nat) :
    List (Outcome α) × LangChainTracer × Nat × List Event :=
  let previous_example_id := tracer.example_id
  let tracer1 : LangChainTracer := { tracer with example_id := some ex.id }
  match runLoop arun_llm target ex.inputs n_repetitions ctr with
  | (outputs, c2, evs) =>
    (outputs, { tracer1 with example_id := previous_example_id }, c2, evs)

/-- Observable events of the sequential entry point `run_on_dataset`:
construction of the single tracer, and one evaluation per example (in
order). -/
inductive SeqEvent where
  | tracerBuilt
  | evaluated : String → SeqEvent
deriving DecidableEq, Repr

/-- Python dict assignment `m[k] = v` on an insertion-ordered dictionary
represented as a key-value list: overwrite in place when the key exists,
append otherwise. -/
def dictInsert {β : Type} (m : List (String × β)) (k : String) (v : β) :
    List (String × β) :=
  if m.any (fun p => p.fst = k) then
    m.map (fun p => if p.fst = k then (k, v) else p)
  else m ++ [(k, v)]

/-- The `for i, example in enumerate(examples)` loop of `run_on_dataset`:
each iteration calls `run_llm_or_chain` on the shared tracer (threading the
tracer state and the allocation seed) and rebinds the loop-local variables
`example` and `result`.  The loop-carried `Option` models those Python
locals, which remain unbound when the loop body never executes. -/
def seqLoop {α : Type} (target : LlmOrChainFactory α) (reps : Nat) :
    List Example → LangChainTracer → Nat →
    Option (Example × List (Outcome α)) →
    Option (Example × List (Outcome α)) × LangChainTracer × Nat × List SeqEvent
  | [], tr, c, last => (last, tr, c, [])
  | e :: rest, tr, c, _ =>
    match run_llm_or_chain e tr target reps c with
    | (outs, tr1, c1, _evs) =>
      match seqLoop target reps rest tr1 c1 (some (e, outs)) with
      | (last2, tr2, c2, sevs) => (last2, tr2, c2, SeqEvent.evaluated e.id :: sevs)

/-- Embedding of the sequential entry point `run_on_dataset` (the dataset
lookup and example listing are external collaborators, so the example list
is a parameter).  Faithful to the source, the final write
`results[str(example.id)] = result` sits outside the example loop: it is
executed once, after the loop, with whatever values the loop variables
`example` and `result` last held.  When the example list is empty those
variables were never bound and the reference raises an
`UnboundLocalError`, modelled as the `Except.error`. -/
def run_on_dataset {α : Type} (examples : List Example)
    (target : LlmOrChainFactory α) (num_repetitions : Nat) (session : String) :
    List SeqEvent × Except String (List (String × List (Outcome α))) :=
  let tracer : LangChainTracer := { session_name := session, example_id := none }
  match seqLoop target num_repetitions examples tracer 0 none with
  | (last, _tr, _c, sevs) =>
    (SeqEvent.tracerBuilt :: sevs,
     match last with
     | none => Except.error "UnboundLocalError: local variable example referenced before assignment"
     | some (e, res) => Except.ok (dictInsert [] e.id res))

/-- Phase of one scheduled unit of work inside `_gather_with_concurrency`
(the body of `run_coroutine_with_semaphore`): not yet past the semaphore;
past `async with semaphore` but before `tracer_queue.get()`; holding tracer
`t` while `async_func` runs; finished (returned or raised, tracer returned
to the queue and permit released). -/
inductive Phase where
  | notStarted
  | acquired
  | running : Nat → Phase
  | finished
deriving DecidableEq, Repr

/-- Behaviour of one `async_func` passed to `_gather_with_concurrency`: for
`arun_on_dataset` every unit returns normally after writing its entry
`results[key] = value`; the raising behaviour models an arbitrary failing
coroutine, against which the pooling discipline must still be safe. -/
inductive Behavior (α : Type) where
  | ret : String → α → Behavior α
  | raise : String → Behavior α
deriving DecidableEq, Repr

/-- One scheduled unit of work: its coroutine behaviour and current phase. -/
structure WUnit (α : Type) where
  beh : Behavior α
  phase : Phase
deriving DecidableEq, Repr

/-- Global state of a `_gather_with_concurrency` run: remaining semaphore
permits, tracer ids available in `tracer_queue` (front = next `get`), the
scheduled units, and the shared `results` dictionary written by the
`process_example` closures of `arun_on_dataset`. -/
structure GState (α : Type) where
  semAvail : Nat
  queue : List Nat
  units : List (WUnit α)
  results : List (String × α)
deriving DecidableEq, Repr

/-- Cooperative small-step semantics of `run_coroutine_with_semaphore`.
Suspension points in the source are `async with semaphore` (acquire) and
`await tracer_queue.get()` (checkout); everything from the return (or
raise) of `async_func` through the `finally` checkin `put_nowait` and the
semaphore release runs without an intervening `await`, hence is one atomic
step.  For a returning unit the write `results[key] = value` happens inside
`async_func` before the checkin, so it is part of that same step. -/
inductive Step {α : Type} : GState α → GState α → Prop where
  | acquire (s : GState α) (i : Nat) (h : i < s.units.length)
      (hp : (s.units.get ⟨i, h⟩).phase = Phase.notStarted)
      (hs : 0 < s.semAvail) :
      Step s { s with
               semAvail := s.semAvail - 1,
               units := s.units.set i
                 { s.units.get ⟨i, h⟩ with phase := Phase.acquired } }
  | checkout (s : GState α) (i : Nat) (h : i < s.units.length)
      (hp : (s.units.get ⟨i, h⟩).phase = Phase.acquired)
      (t : Nat) (rest : List Nat) (hq : s.queue = t :: rest) :
      Step s { s with
               queue := rest,
               units := s.units.set i
                 { s.units.get ⟨i, h⟩ with phase := Phase.running t } }
  | finishRet (s : GState α) (i : Nat) (h : i < s.units.length)
      (t : Nat) (k : String) (v : α)
      (hp : (s.units.get ⟨i, h⟩).phase = Phase.running t)
      (hb : (s.units.get ⟨i, h⟩).beh = Behavior.ret k v) :
      Step s { semAvail := s.semAvail + 1,
               queue := s.queue ++ [t],
               units := s.units.set i
                 { s.units.get ⟨i, h⟩ with phase := Phase.finished },
               results := dictInsert s.results k v }
  | finishRaise (s : GState α) (i : Nat) (h : i < s.units.length)
      (t : Nat) (m : String)
      (hp : (s.units.get ⟨i, h⟩).phase = Phase.running t)
      (hb : (s.units.get ⟨i, h⟩).beh = Behavior.raise m) :
      Step s { semAvail := s.semAvail + 1,
               queue := s.queue ++ [t],
               units := s.units.set i
                 { s.units.get ⟨i, h⟩ with phase := Phase.finished },
               results := s.results }

/-- Reachability: reflexive-transitive closure of `Step`. -/
def Reach {α : Type} (s s2 : GState α) : Prop :=
  Relation.ReflTransGen Step s s2

/-- State of a `_gather_with_concurrency` call right after the semaphore,
the job-state dictionary and the tracer pool have been built and the units
scheduled: `n` permits, tracers `0 .. n-1` queued, all units not started,
results empty. -/
def initState {α : Type} (n : Nat) (behs : List (Behavior α)) : GState α :=
  { semAvail := n,
    queue := List.range n,
    units := behs.map (fun b => { beh := b, phase := Phase.notStarted }),
    results := [] }

/-- The pool-construction loop
`for _ in range(n): tracer_queue.put_nowait(await initializer())` with the
calls numbered from `k`: fail-fast on the first raising call. -/
def buildPool (mkTracer : Nat → Except String LangChainTracer) :
    Nat → Nat → Except String (List LangChainTracer)
  | k, 0 => (fun _ => Except.ok []) k
  | k, Nat.succ j =>
    match mkTracer k with
    | Except.error e => Except.error e
    | Except.ok tr =>
      match buildPool mkTracer (k + 1) j with
      | Except.error e => Except.error e
      | Except.ok trs => Except.ok (tr :: trs)

/-- Start-up of `_gather_with_concurrency n mkTracer behs`: constructing
`asyncio.Semaphore(n)` raises a `ValueError` for negative `n` (before the
pool loop runs); then the pool loop runs the tracer builder `n` times,
propagating its first error; on success the scheduled system starts in
`initState`.  The tracer ids in the queue index the built pool. -/
def gatherStart {α : Type} (n : Int)
    (mkTracer : Nat → Except String LangChainTracer)
    (behs : List (Behavior α)) : Except String (GState α) :=
  if n < 0 then Except.error "ValueError: Semaphore initial value must be at least 0"
  else
    match buildPool mkTracer 0 n.toNat with
    | Except.error e => Except.error e
    | Except.ok _trs => Except.ok (initState n.toNat behs)

/-- The behaviour of `process_example e` in `arun_on_dataset`: call
`_arun_llm_or_chain` on the checked-out tracer and write the outputs under
`str(example.id)`; it never raises (see the evaluator theorems).  The seed
0 reflects that each unit allocates its chain instances independently. -/
def processExampleBeh {α : Type} (target : LlmOrChainFactory α)
    (num_repetitions : Nat) (session : String) (e : Example) :
    Behavior (List (Outcome α)) :=
  Behavior.ret e.id
    (arun_llm_or_chain e { session_name := session, example_id := none }
      target num_repetitions 0).fst

/-- The unit behaviours scheduled by `arun_on_dataset`: one `process_example`
per listed example. -/
def arunBehaviors {α : Type} (examples : List Example)
    (target : LlmOrChainFactory α) (num_repetitions : Nat) (session : String) :
    List (Behavior (List (Outcome α))) :=
  examples.map (processExampleBeh target num_repetitions session)

/-- The allocation seed after one repetition: a direct model allocates
nothing, a factory target consumes one fresh seed per repetition. -/
def ctrStep {α : Type} (target : LlmOrChainFactory α) (c : Nat) : Nat :=
  match target with
  | LlmOrChainFactory.languageModel _ => c
  | LlmOrChainFactory.chainFactory _ => c + 1

/-- The allocation seed at the start of repetition `i` when the loop started
at seed `c`. -/
def repSeed {α : Type} (target : LlmOrChainFactory α) (c i : Nat) : Nat :=
  match target with
  | LlmOrChainFactory.languageModel _ => c
  | LlmOrChainFactory.chainFactory _ => c + i

/-- Is this unit currently holding a checked-out tracer (past
`tracer_queue.get`, before the `finally` checkin)? -/
def isRunningPhase : Phase → Bool
  | Phase.running _ => true
  | _ => false

/-- Is this unit past the semaphore but not yet holding a tracer? -/
def isAcquiredPhase : Phase → Bool
  | Phase.acquired => true
  | _ => false

/-- Number of units currently holding a checked-out tracer. -/
def countRunning {α : Type} (us : List (WUnit α)) : Nat :=
  us.countP (fun u => isRunningPhase u.phase)

/-- Number of units admitted by the semaphore but not yet holding a tracer. -/
def countAcquired {α : Type} (us : List (WUnit α)) : Nat :=
  us.countP (fun u => isAcquiredPhase u.phase)

/-- The lockstep invariant of the admission gate and the tracer pool:
available permits plus admitted units equal `n`, and queued tracers plus
held tracers equal `n`. -/
def GInv {α : Type} (n : Nat) (s : GState α) : Prop :=
  s.semAvail + countAcquired s.units + countRunning s.units = n ∧
  s.queue.length + countRunning s.units = n

/-- Boolean test for the error case of an `Except String`. -/
def isErrorB {β : Type} : Except String β → Bool
  | Except.error _ => true
  | Except.ok _ => false

/-- Concrete fixtures used by witness and counterexample theorems. -/
def demoBehavior : Behavior Nat := Behavior.ret "a" 0

def failTracerBuilder : Nat → Except String LangChainTracer :=
  fun _ => Except.error "tracer construction reached"

def failingAtStart : Nat → Except String LangChainTracer :=
  fun _ => Except.error "session down"

def runningUnit : WUnit Nat := { beh := Behavior.ret "a" 0, phase := Phase.running 0 }

def finishedUnit : WUnit Nat := { beh := Behavior.ret "a" 0, phase := Phase.finished }

def demoRunState : GState Nat :=
  { semAvail := 0, queue := [], units := [runningUnit], results := [] }

def demoDoneState : GState Nat :=
  { semAvail := 1, queue := [0], units := [finishedUnit],
    results := dictInsert [] "a" 0 }

def exampleA : Example := { id := "a", inputs := { prompt := some "p", messages := none } }

def exampleB : Example := { id := "b", inputs := { prompt := some "q", messages := none } }

def llmAlwaysOk : LanguageModel String :=
  { kind := ModelKind.baseLLM, genPrompt := fun _ => Except.ok "ok",
    genMessages := fun _ => Except.ok "ok" }

def llmTextOnly : LanguageModel Nat :=
  { kind := ModelKind.baseLLM, genPrompt := fun _ => Except.ok 0,
    genMessages := fun _ => Except.ok 1 }

def messagesOnlyExample : Example :=
  { id := "m", inputs := { prompt := none, messages := some ["hello"] } }

def demoTracer : LangChainTracer := { session_name := "s", example_id := none }

def freshChainFactory : Nat → Except String (Chain Nat) :=
  fun k => Except.ok { instanceId := k, run := fun _ => Except.ok 7 }


def isFinishedPhase : Phase → Bool
  | Phase.finished => true
  | _ => false

def keyMatches {α : Type} (k : String) : Behavior α → Bool
  | Behavior.ret k2 _ => k2 == k
  | Behavior.raise _ => false

def finishedKeyCount {α : Type} (k : String) (us : List (WUnit α)) : Nat :=
  us.countP (fun u => keyMatches k u.beh && isFinishedPhase u.phase)

def finishedCount {α : Type} (us : List (WUnit α)) : Nat :=
  us.countP (fun u => isFinishedPhase u.phase)

def ResultsInv {α : Type} (behs : List (Behavior α)) (s : GState α) : Prop :=
  s.units.map WUnit.beh = behs ∧
  s.results.length = finishedCount s.units ∧
  ∀ k, (s.results.map Prod.fst).countP (fun k2 => k2 == k) = finishedKeyCount k s.units

@[simp]
theorem isAcquiredPhase_notStarted : isAcquiredPhase Phase.notStarted = false := rfl

@[simp]
theorem isAcquiredPhase_acquired : isAcquiredPhase Phase.acquired = true := rfl

@[simp]
theorem isAcquiredPhase_running (t : Nat) :
    isAcquiredPhase (Phase.running t) = false := rfl

@[simp]
theorem isAcquiredPhase_finished : isAcquiredPhase Phase.finished = false := rfl

@[simp]
theorem isRunningPhase_notStarted : isRunningPhase Phase.notStarted = false := rfl

@[simp]
theorem isRunningPhase_acquired : isRunningPhase Phase.acquired = false := rfl

@[simp]
theorem isRunningPhase_running (t : Nat) : isRunningPhase (Phase.running t) = true := rfl

@[simp]
theorem isRunningPhase_finished : isRunningPhase Phase.finished = false := rfl

/-- Updating one list element changes `countP` by the difference of the
predicate on the old and the new value. -/
theorem countP_set_add {β : Type} (p : β → Bool) (l : List β) (i : Nat) (x : β)
    (h : i < l.length) :
    (l.set i x).countP p + (if p (l.get ⟨i, h⟩) then 1 else 0)
      = l.countP p + (if p x then 1 else 0) := by
  induction l generalizing i with
  | nil => simp at h
  | cons a tl ih =>
    cases i with
    | zero =>
      simp [List.countP_cons]
      omega
    | succ j =>
      have hj : j < tl.length := by simpa using h
      have := ih j hj
      simp only [List.get_eq_getElem] at this
      simp [List.countP_cons, List.set, List.get_eq_getElem]
      omega

theorem get_set_other {β : Type} (l : List β) (i j : Nat) (x : β) (hne : i ≠ j)
    (h2 : j < (l.set i x).length) (h3 : j < l.length) :
    (l.set i x).get ⟨j, h2⟩ = l.get ⟨j, h3⟩ := by
  simp [List.get_eq_getElem, List.getElem_set_ne hne]

theorem get_set_same {β : Type} (l : List β) (i : Nat) (x : β)
    (h2 : i < (l.set i x).length) : (l.set i x).get ⟨i, h2⟩ = x := by
  simp [List.get_eq_getElem, List.getElem_set_self]

theorem repSeed_zero {α : Type} (t : LlmOrChainFactory α) (c : Nat) :
    repSeed t c 0 = c := by
  cases t <;> simp [repSeed]

theorem repSeed_step {α : Type} (t : LlmOrChainFactory α) (c i : Nat) :
    repSeed t (ctrStep t c) i = repSeed t c (i + 1) := by
  cases t with
  | languageModel llm => rfl
  | chainFactory mk =>
    simp only [repSeed, ctrStep]
    omega

/-- One repetition advances the allocation seed by `ctrStep`, no matter
whether the repetition succeeded or failed. -/
theorem runOneRep_ctr {α : Type}
    (f : LanguageModel α → Inputs → Except String α × List Event)
    (t : LlmOrChainFactory α) (inp : Inputs) (c : Nat) :
    (runOneRep f t inp c).snd.fst = ctrStep t c := by
  cases t with
  | languageModel llm =>
    rcases hf : f llm inp with ⟨res, evs⟩
    cases res <;> simp [runOneRep, hf, ctrStep]
  | chainFactory mk =>
    rcases hm : mk c with e | ch
    · simp [runOneRep, hm, ctrStep]
    · rcases hr : ch.run inp with e2 | out <;> simp [runOneRep, hm, hr, ctrStep]

/-- Closed form of the repetition loop: the `i`-th slot of the output is
exactly the outcome of the `i`-th repetition, computed from that
repetition's seed only; the events are the per-repetition events in
order. -/
theorem runLoop_eq {α : Type}
    (f : LanguageModel α → Inputs → Except String α × List Event)
    (t : LlmOrChainFactory α) (inp : Inputs) :
    ∀ (r c : Nat),
      runLoop f t inp r c =
        ((List.range r).map (fun i => (runOneRep f t inp (repSeed t c i)).fst),
         repSeed t c r,
         (List.range r).flatMap (fun i => (runOneRep f t inp (repSeed t c i)).snd.snd))
  | 0, c => by
    simp [runLoop, repSeed_zero]
  | Nat.succ k, c => by
    rcases h1 : runOneRep f t inp c with ⟨o, c1, evs⟩
    have hc1 : c1 = ctrStep t c := by
      have := runOneRep_ctr f t inp c
      rw [h1] at this
      exact this
    have ih := runLoop_eq f t inp k c1
    simp only [runLoop, h1, ih]
    subst hc1
    simp [List.range_succ_eq_map, List.flatMap_map, Function.comp, repSeed_zero,
      repSeed_step, h1]

theorem run_llm_or_chain_eq {α : Type} (ex : Example) (tr : LangChainTracer)
    (t : LlmOrChainFactory α) (r c : Nat) :
    run_llm_or_chain ex tr t r c =
      ((List.range r).map (fun i => (runOneRep run_llm t ex.inputs (repSeed t c i)).fst),
       { tr with example_id := tr.example_id },
       repSeed t c r,
       (List.range r).flatMap
         (fun i => (runOneRep run_llm t ex.inputs (repSeed t c i)).snd.snd)) := by
  simp [run_llm_or_chain, runLoop_eq]

theorem arun_llm_or_chain_eq {α : Type} (ex : Example) (tr : LangChainTracer)
    (t : LlmOrChainFactory α) (r c : Nat) :
    arun_llm_or_chain ex tr t r c =
      ((List.range r).map (fun i => (runOneRep arun_llm t ex.inputs (repSeed t c i)).fst),
       { tr with example_id := tr.example_id },
       repSeed t c r,
       (List.range r).flatMap
         (fun i => (runOneRep arun_llm t ex.inputs (repSeed t c i)).snd.snd)) := by
  simp [arun_llm_or_chain, runLoop_eq]

/-- The repetition loop with a factory target emits exactly one factory
call for each repetition seed in the window, and none outside it. -/
theorem count_factoryCall_runLoop {α : Type}
    (f : LanguageModel α → Inputs → Except String α × List Event)
    (mk : Nat → Except String (Chain α)) (inp : Inputs) :
    ∀ (r c k : Nat),
      ((runLoop f (LlmOrChainFactory.chainFactory mk) inp r c).snd.snd).count
          (Event.factoryCall k)
        = if c ≤ k ∧ k < c + r then 1 else 0
  | 0, c, k => by
    simp only [runLoop, List.count_nil]
    split <;> omega
  | Nat.succ rr, c, k => by
    have ih := count_factoryCall_runLoop f mk inp rr (c + 1) k
    have hhead : ((runOneRep f (LlmOrChainFactory.chainFactory mk) inp c).snd.snd).count
        (Event.factoryCall k) = if k = c then 1 else 0 := by
      have hevs : (runOneRep f (LlmOrChainFactory.chainFactory mk) inp c).snd.snd
            = [Event.factoryCall c] ∨
          ∃ j, (runOneRep f (LlmOrChainFactory.chainFactory mk) inp c).snd.snd
            = [Event.factoryCall c, Event.chainRun j] := by
        rcases hm : mk c with e | ch
        · exact Or.inl (by simp [runOneRep, hm])
        · refine Or.inr ⟨ch.instanceId, ?_⟩
          rcases hr : ch.run inp with e2 | out <;> simp [runOneRep, hm, hr]
      rcases hevs with hevs | ⟨j, hevs⟩ <;> rw [hevs] <;> by_cases hkc : k = c
      · subst hkc; simp
      · simp [List.count_cons, hkc, Ne.symm hkc]
      · subst hkc; simp
      · simp [List.count_cons, hkc, Ne.symm hkc]
    rcases h1 : runOneRep f (LlmOrChainFactory.chainFactory mk) inp c with ⟨o, c1, evs⟩
    have hc1 : c1 = c + 1 := by
      have := runOneRep_ctr f (LlmOrChainFactory.chainFactory mk) inp c
      rw [h1] at this
      exact this
    rcases h2 : runLoop f (LlmOrChainFactory.chainFactory mk) inp rr c1 with ⟨os, c2, evs2⟩
    rw [h1] at hhead
    subst hc1
    rw [h2] at ih
    dsimp only at ih
    simp only [runLoop, h1, h2, List.count_append]
    simp only [hhead, ih]
    by_cases hkc : k = c <;> simp [hkc] <;> split <;> split <;> omega

/-- With a factory honouring the freshness contract, each chain instance is
invoked at most once across the whole repetition loop, and only instances
allocated in the loop's seed window are ever invoked. -/
theorem count_chainRun_runLoop {α : Type}
    (f : LanguageModel α → Inputs → Except String α × List Event)
    (mk : Nat → Except String (Chain α)) (inp : Inputs)
    (hfresh : ∀ k ch, mk k = Except.ok ch → ch.instanceId = k) :
    ∀ (r c j : Nat),
      ((runLoop f (LlmOrChainFactory.chainFactory mk) inp r c).snd.snd).count
          (Event.chainRun j)
        ≤ if c ≤ j ∧ j < c + r then 1 else 0
  | 0, c, j => by
    simp only [runLoop, List.count_nil]
    split <;> omega
  | Nat.succ rr, c, j => by
    have ih := count_chainRun_runLoop f mk inp hfresh rr (c + 1) j
    have hhead : ((runOneRep f (LlmOrChainFactory.chainFactory mk) inp c).snd.snd).count
        (Event.chainRun j) ≤ if j = c then 1 else 0 := by
      have hevs : (runOneRep f (LlmOrChainFactory.chainFactory mk) inp c).snd.snd
            = [Event.factoryCall c] ∨
          (runOneRep f (LlmOrChainFactory.chainFactory mk) inp c).snd.snd
            = [Event.factoryCall c, Event.chainRun c] := by
        rcases hm : mk c with e | ch
        · exact Or.inl (by simp [runOneRep, hm])
        · refine Or.inr ?_
          have hid : ch.instanceId = c := hfresh c ch hm
          rcases hr : ch.run inp with e2 | out <;> simp [runOneRep, hm, hr, hid]
      rcases hevs with hevs | hevs <;> rw [hevs] <;> by_cases hjc : j = c
      · subst hjc; simp
      · simp [List.count_cons, hjc, Ne.symm hjc]
      · subst hjc; simp
      · simp [List.count_cons, hjc, Ne.symm hjc]
    rcases h1 : runOneRep f (LlmOrChainFactory.chainFactory mk) inp c with ⟨o, c1, evs⟩
    have hc1 : c1 = c + 1 := by
      have := runOneRep_ctr f (LlmOrChainFactory.chainFactory mk) inp c
      rw [h1] at this
      exact this
    rcases h2 : runLoop f (LlmOrChainFactory.chainFactory mk) inp rr c1 with ⟨os, c2, evs2⟩
    rw [h1] at hhead
    subst hc1
    rw [h2] at ih
    dsimp only at ih
    simp only [runLoop, h1, h2, List.count_append]
    by_cases hjc : j = c
    · simp only [if_pos hjc] at hhead
      split at ih <;> split <;> omega
    · simp only [if_neg hjc] at hhead
      split at ih <;> split <;> omega

/-- When the model call of a direct-model target raises, every repetition
records the same failure marker: the whole output is `replicate`. -/
theorem run_llm_or_chain_llm_error {α : Type} (ex : Example) (tr : LangChainTracer)
    (llm : LanguageModel α) (r c : Nat) (e : String) (evs : List Event)
    (he : run_llm llm ex.inputs = (Except.error e, evs)) :
    (run_llm_or_chain ex tr (LlmOrChainFactory.languageModel llm) r c).fst
      = List.replicate r (Outcome.failureMarker e) := by
  have hone : ∀ s : Nat,
      (runOneRep run_llm (LlmOrChainFactory.languageModel llm) ex.inputs s).fst
        = Outcome.failureMarker e := by
    intro s
    simp [runOneRep, he]
  rw [run_llm_or_chain_eq]
  dsimp only
  calc (List.range r).map
        (fun i => (runOneRep run_llm (LlmOrChainFactory.languageModel llm) ex.inputs
          (repSeed (LlmOrChainFactory.languageModel llm) c i)).fst)
      = (List.range r).map (fun _ => Outcome.failureMarker e) := by
        exact List.map_congr_left (fun a _ => hone _)
    _ = List.replicate r (Outcome.failureMarker e) := by
        simp

theorem arun_llm_or_chain_llm_error {α : Type} (ex : Example) (tr : LangChainTracer)
    (llm : LanguageModel α) (r c : Nat) (e : String) (evs : List Event)
    (he : arun_llm llm ex.inputs = (Except.error e, evs)) :
    (arun_llm_or_chain ex tr (LlmOrChainFactory.languageModel llm) r c).fst
      = List.replicate r (Outcome.failureMarker e) := by
  have hone : ∀ s : Nat,
      (runOneRep arun_llm (LlmOrChainFactory.languageModel llm) ex.inputs s).fst
        = Outcome.failureMarker e := by
    intro s
    simp [runOneRep, he]
  rw [arun_llm_or_chain_eq]
  dsimp only
  calc (List.range r).map
        (fun i => (runOneRep arun_llm (LlmOrChainFactory.languageModel llm) ex.inputs
          (repSeed (LlmOrChainFactory.languageModel llm) c i)).fst)
      = (List.range r).map (fun _ => Outcome.failureMarker e) := by
        exact List.map_congr_left (fun a _ => hone _)
    _ = List.replicate r (Outcome.failureMarker e) := by
        simp

/-- Every step of the scheduler preserves the gate/pool lockstep
invariant. -/
theorem ginv_step {α : Type} {n : Nat} {s s2 : GState α}
    (hinv : GInv n s) (hstep : Step s s2) : GInv n s2 := by
  obtain ⟨h1, h2⟩ := hinv
  cases hstep with
  | acquire i h hp hs0 =>
    have ha := countP_set_add (fun u => isAcquiredPhase u.phase) s.units i
      { s.units.get ⟨i, h⟩ with phase := Phase.acquired } h
    have hr := countP_set_add (fun u => isRunningPhase u.phase) s.units i
      { s.units.get ⟨i, h⟩ with phase := Phase.acquired } h
    rw [hp] at ha hr
    simp only [isAcquiredPhase_notStarted, isAcquiredPhase_acquired,
      isRunningPhase_notStarted, isRunningPhase_acquired] at ha hr
    simp only [Bool.false_eq_true, if_false, if_true] at ha hr
    constructor <;>
      simp only [GInv, countAcquired, countRunning] at h1 h2 ⊢ <;>
      omega
  | checkout i h hp t rest hq =>
    have ha := countP_set_add (fun u => isAcquiredPhase u.phase) s.units i
      { s.units.get ⟨i, h⟩ with phase := Phase.running t } h
    have hr := countP_set_add (fun u => isRunningPhase u.phase) s.units i
      { s.units.get ⟨i, h⟩ with phase := Phase.running t } h
    rw [hp] at ha hr
    simp only [isAcquiredPhase_acquired, isAcquiredPhase_running,
      isRunningPhase_acquired, isRunningPhase_running] at ha hr
    simp only [Bool.false_eq_true, if_false, if_true] at ha hr
    have hlen : s.queue.length = rest.length + 1 := by rw [hq]; simp
    constructor <;>
      simp only [GInv, countAcquired, countRunning] at h1 h2 ⊢ <;>
      omega
  | finishRet i h t k v hp hb =>
    have ha := countP_set_add (fun u => isAcquiredPhase u.phase) s.units i
      { s.units.get ⟨i, h⟩ with phase := Phase.finished } h
    have hr := countP_set_add (fun u => isRunningPhase u.phase) s.units i
      { s.units.get ⟨i, h⟩ with phase := Phase.finished } h
    rw [hp] at ha hr
    simp only [isAcquiredPhase_running, isAcquiredPhase_finished,
      isRunningPhase_running, isRunningPhase_finished] at ha hr
    simp only [Bool.false_eq_true, if_false, if_true] at ha hr
    constructor <;>
      simp only [GInv, countAcquired, countRunning, List.length_append,
        List.length_singleton] at h1 h2 ⊢ <;>
      omega
  | finishRaise i h t m hp hb =>
    have ha := countP_set_add (fun u => isAcquiredPhase u.phase) s.units i
      { s.units.get ⟨i, h⟩ with phase := Phase.finished } h
    have hr := countP_set_add (fun u => isRunningPhase u.phase) s.units i
      { s.units.get ⟨i, h⟩ with phase := Phase.finished } h
    rw [hp] at ha hr
    simp only [isAcquiredPhase_running, isAcquiredPhase_finished,
      isRunningPhase_running, isRunningPhase_finished] at ha hr
    simp only [Bool.false_eq_true, if_false, if_true] at ha hr
    constructor <;>
      simp only [GInv, countAcquired, countRunning, List.length_append,
        List.length_singleton] at h1 h2 ⊢ <;>
      omega

theorem ginv_init {α : Type} (n : Nat) (behs : List (Behavior α)) :
    GInv n (initState n behs) := by
  have hA : countAcquired (initState n behs).units = 0 := by
    simp only [countAcquired]
    apply List.countP_eq_zero.mpr
    intro u hu
    simp only [initState] at hu
    obtain ⟨b, hb, rfl⟩ := List.mem_map.mp hu
    simp
  have hR : countRunning (initState n behs).units = 0 := by
    simp only [countRunning]
    apply List.countP_eq_zero.mpr
    intro u hu
    simp only [initState] at hu
    obtain ⟨b, hb, rfl⟩ := List.mem_map.mp hu
    simp
  refine ⟨?_, ?_⟩
  · rw [hA, hR]
    simp [initState]
  · rw [hR]
    simp [initState]

theorem ginv_reach {α : Type} {n : Nat} {s0 s : GState α}
    (h0 : GInv n s0) (h : Reach s0 s) : GInv n s := by
  induction h with
  | refl => exact h0
  | tail hr hstep ih => exact ginv_step ih hstep

/-- A tracer held by a unit is returned to the queue by whichever step ends
that unit's running phase, including the step modelling a raising
coroutine. -/
theorem checkin_on_exit {α : Type} (s s2 : GState α) (hstep : Step s s2)
    (i : Nat) (h : i < s.units.length) (t : Nat)
    (hp : (s.units.get ⟨i, h⟩).phase = Phase.running t)
    (h2 : i < s2.units.length)
    (hp2 : (s2.units.get ⟨i, h2⟩).phase ≠ Phase.running t) :
    t ∈ s2.queue := by
  cases hstep with
  | acquire j hj hpj hs0 =>
    by_cases hij : j = i
    · subst hij
      rw [hp] at hpj
      cases hpj
    · exfalso
      apply hp2
      rw [get_set_other s.units j i _ hij h2 h]
      exact hp
  | checkout j hj hpj t2 rest hq =>
    by_cases hij : j = i
    · subst hij
      rw [hp] at hpj
      cases hpj
    · exfalso
      apply hp2
      rw [get_set_other s.units j i _ hij h2 h]
      exact hp
  | finishRet j hj t2 k v hpj hb =>
    by_cases hij : j = i
    · subst hij
      have hq : s.units.get ⟨j, hj⟩ = s.units.get ⟨j, h⟩ := rfl
      rw [hq, hp] at hpj
      cases hpj
      simp
    · exfalso
      apply hp2
      rw [get_set_other s.units j i _ hij h2 h]
      exact hp
  | finishRaise j hj t2 m hpj hb =>
    by_cases hij : j = i
    · subst hij
      have hq : s.units.get ⟨j, hj⟩ = s.units.get ⟨j, h⟩ := rfl
      rw [hq, hp] at hpj
      cases hpj
      simp
    · exfalso
      apply hp2
      rw [get_set_other s.units j i _ hij h2 h]
      exact hp

theorem countRunning_eq_zero_of_finished {α : Type} (us : List (WUnit α))
    (hall : ∀ u ∈ us, u.phase = Phase.finished) : countRunning us = 0 := by
  simp only [countRunning]
  apply List.countP_eq_zero.mpr
  intro u hu
  rw [hall u hu]
  simp

/-- Once every unit has finished, the queue again holds all `n` tracers. -/
theorem queue_restored {α : Type} (n : Nat) (behs : List (Behavior α)) (s : GState α)
    (h : Reach (initState n behs) s)
    (hall : ∀ u ∈ s.units, u.phase = Phase.finished) : s.queue.length = n := by
  obtain ⟨e1, e2⟩ := ginv_reach (ginv_init n behs) h
  have := countRunning_eq_zero_of_finished s.units hall
  omega

/-- With zero permits no scheduled unit can ever take a step: the system is
stuck at its initial state. -/
theorem no_step_of_zero {α : Type} (behs : List (Behavior α)) (s2 : GState α)
    (hstep : Step (initState 0 behs) s2) : False := by
  have hph : ∀ (i : Nat) (h : i < (initState 0 behs).units.length),
      ((initState 0 behs).units.get ⟨i, h⟩).phase = Phase.notStarted := by
    intro i h
    show (((behs.map (fun b => { beh := b, phase := Phase.notStarted })) :
        List (WUnit α)).get ⟨i, h⟩).phase = Phase.notStarted
    simp [List.get_eq_getElem, List.getElem_map]
  cases hstep with
  | acquire i h hp hs0 => simp [initState] at hs0
  | checkout i h hp t rest hq =>
    rw [hph i h] at hp
    cases hp
  | finishRet i h t k v hp hb =>
    rw [hph i h] at hp
    cases hp
  | finishRaise i h t m hp hb =>
    rw [hph i h] at hp
    cases hp

theorem reach_zero_fixed {α : Type} (behs : List (Behavior α)) (s : GState α)
    (h : Reach (initState 0 behs) s) : s = initState 0 behs := by
  induction h with
  | refl => rfl
  | tail hr hstep ih =>
    subst ih
    exact absurd hstep (fun hs => no_step_of_zero behs _ hs)

@[simp]
theorem isFinishedPhase_notStarted : isFinishedPhase Phase.notStarted = false := rfl

@[simp]
theorem isFinishedPhase_acquired : isFinishedPhase Phase.acquired = false := rfl

@[simp]
theorem isFinishedPhase_running (t : Nat) : isFinishedPhase (Phase.running t) = false := rfl

@[simp]
theorem isFinishedPhase_finished : isFinishedPhase Phase.finished = true := rfl

@[simp]
theorem keyMatches_ret {α : Type} (k k2 : String) (v : α) :
    keyMatches k (Behavior.ret k2 v) = (k2 == k) := rfl

@[simp]
theorem keyMatches_raise {α : Type} (k m : String) :
    keyMatches k (Behavior.raise m : Behavior α) = false := rfl

theorem map_set_self_of_eq {β γ : Type} (f : β → γ) (l : List β) (i : Nat) (x : β)
    (h : i < l.length) (hfx : f x = f (l.get ⟨i, h⟩)) :
    (l.set i x).map f = l.map f := by
  induction l generalizing i with
  | nil => simp at h
  | cons a tl ih =>
    cases i with
    | zero =>
      simp only [List.get_eq_getElem] at hfx
      simp [List.set, hfx]
    | succ j =>
      have hj : j < tl.length := by simpa using h
      simp only [List.get_eq_getElem] at hfx
      simp [List.set, ih j hj (by simpa using hfx)]

theorem countP_lt_of_witness {β : Type} (p q : β → Bool)
    (himp : ∀ a, q a = true → p a = true) (l : List β) (i : Nat) (h : i < l.length)
    (hp : p (l.get ⟨i, h⟩) = true) (hq : q (l.get ⟨i, h⟩) = false) :
    l.countP q < l.countP p := by
  have hmono : l.countP q ≤ l.countP p := List.countP_mono_left (fun a _ => himp a)
  induction l generalizing i with
  | nil => simp at h
  | cons a tl ih =>
    cases i with
    | zero =>
      simp only [List.get_eq_getElem] at hp hq
      simp only [List.getElem_cons_zero] at hp hq
      have : tl.countP q ≤ tl.countP p := List.countP_mono_left (fun a _ => himp a)
      simp [List.countP_cons, hp, hq]
      omega
    | succ j =>
      have hj : j < tl.length := by simpa using h
      have hp2 : p (tl.get ⟨j, hj⟩) = true := by
        simpa [List.get_eq_getElem] using hp
      have hq2 : q (tl.get ⟨j, hj⟩) = false := by
        simpa [List.get_eq_getElem] using hq
      have := ih j hj hp2 hq2 (List.countP_mono_left (fun a _ => himp a))
      simp [List.countP_cons]
      by_cases hqa : q a = true
      · have := himp a hqa
        simp_all
      · simp at hqa
        simp [hqa]
        by_cases hpa : p a = true <;> simp_all <;> omega

theorem dictInsert_append_of_absent {β : Type} (m : List (String × β)) (k : String)
    (v : β) (habs : (m.map Prod.fst).countP (fun k2 => k2 == k) = 0) :
    dictInsert m k v = m ++ [(k, v)] := by
  have hnomem : ∀ p ∈ m, ¬(p.fst = k) := by
    intro p hp heq
    have hmem : p.fst ∈ m.map Prod.fst := List.mem_map.mpr ⟨p, hp, rfl⟩
    have := List.countP_eq_zero.mp habs p.fst hmem
    simp [heq] at this
  simp only [dictInsert]
  rw [if_neg]
  intro hany
  obtain ⟨p, hp, hpk⟩ := List.any_eq_true.mp hany
  exact hnomem p hp (by simpa using hpk)

theorem resultsInv_init {α : Type} (n : Nat) (behs : List (Behavior α)) :
    ResultsInv behs (initState n behs) := by
  have hfin0 : finishedCount (initState n behs).units = 0 := by
    simp only [finishedCount]
    apply List.countP_eq_zero.mpr
    intro u hu
    simp only [initState] at hu
    obtain ⟨b, hb, rfl⟩ := List.mem_map.mp hu
    simp
  have hfk : ∀ k, finishedKeyCount k (initState n behs).units = 0 := by
    intro k
    simp only [finishedKeyCount]
    apply List.countP_eq_zero.mpr
    intro u hu
    simp only [initState] at hu
    obtain ⟨b, hb, rfl⟩ := List.mem_map.mp hu
    simp
  refine ⟨?_, ?_, ?_⟩
  · simp only [initState, List.map_map]
    have hcomp : (WUnit.beh ∘ fun b => ({ beh := b, phase := Phase.notStarted } : WUnit α))
        = id := by
      funext b
      rfl
    rw [hcomp, List.map_id]
  · rw [hfin0]
    simp [initState]
  · intro k
    rw [hfk k]
    simp [initState]

theorem resultsInv_step {α : Type} {behs : List (Behavior α)} {s s2 : GState α}
    (hall : ∀ b ∈ behs, ∃ k v, b = Behavior.ret k v)
    (hnodup : ∀ k, behs.countP (keyMatches k) ≤ 1)
    (hinv : ResultsInv behs s) (hstep : Step s s2) : ResultsInv behs s2 := by
  obtain ⟨hbeh, hlen, hcount⟩ := hinv
  have hunitsP : ∀ k2 : String,
      s.units.countP (fun u => keyMatches k2 u.beh) = behs.countP (keyMatches k2) := by
    intro k2
    rw [← hbeh, List.countP_map]
    rfl
  cases hstep with
  | acquire i h hp hs0 =>
    refine ⟨?_, ?_, ?_⟩
    · rw [map_set_self_of_eq WUnit.beh s.units i
        { s.units.get ⟨i, h⟩ with phase := Phase.acquired } h rfl]
      exact hbeh
    · have hc := countP_set_add (fun u => isFinishedPhase u.phase) s.units i
        { s.units.get ⟨i, h⟩ with phase := Phase.acquired } h
      rw [hp] at hc
      simp only [isFinishedPhase_notStarted, isFinishedPhase_acquired,
        Bool.false_eq_true, if_false] at hc
      simp only [finishedCount] at hlen ⊢
      omega
    · intro k
      have hc := countP_set_add (fun u => keyMatches k u.beh && isFinishedPhase u.phase)
        s.units i { s.units.get ⟨i, h⟩ with phase := Phase.acquired } h
      rw [hp] at hc
      simp only [isFinishedPhase_notStarted, isFinishedPhase_acquired, Bool.and_false,
        Bool.false_eq_true, if_false] at hc
      have := hcount k
      simp only [finishedKeyCount] at this ⊢
      omega
  | checkout i h hp t rest hq =>
    refine ⟨?_, ?_, ?_⟩
    · rw [map_set_self_of_eq WUnit.beh s.units i
        { s.units.get ⟨i, h⟩ with phase := Phase.running t } h rfl]
      exact hbeh
    · have hc := countP_set_add (fun u => isFinishedPhase u.phase) s.units i
        { s.units.get ⟨i, h⟩ with phase := Phase.running t } h
      rw [hp] at hc
      simp only [isFinishedPhase_acquired, isFinishedPhase_running,
        Bool.false_eq_true, if_false] at hc
      simp only [finishedCount] at hlen ⊢
      omega
    · intro k
      have hc := countP_set_add (fun u => keyMatches k u.beh && isFinishedPhase u.phase)
        s.units i { s.units.get ⟨i, h⟩ with phase := Phase.running t } h
      rw [hp] at hc
      simp only [isFinishedPhase_acquired, isFinishedPhase_running, Bool.and_false,
        Bool.false_eq_true, if_false] at hc
      have := hcount k
      simp only [finishedKeyCount] at this ⊢
      omega
  | finishRet i h t k0 v hp hb =>
    have habs : (s.results.map Prod.fst).countP (fun k2 => k2 == k0) = 0 := by
      have himp : ∀ u : WUnit α,
          (keyMatches k0 u.beh && isFinishedPhase u.phase) = true →
          keyMatches k0 u.beh = true := by
        intro u hu
        simp only [Bool.and_eq_true] at hu
        exact hu.1
      have hpw : keyMatches k0 (s.units.get ⟨i, h⟩).beh = true := by
        rw [hb]
        simp
      have hqw : (keyMatches k0 (s.units.get ⟨i, h⟩).beh &&
          isFinishedPhase (s.units.get ⟨i, h⟩).phase) = false := by
        rw [hp]
        simp
      have hlt := countP_lt_of_witness (fun u => keyMatches k0 u.beh)
        (fun u => keyMatches k0 u.beh && isFinishedPhase u.phase) himp s.units i h hpw hqw
      have hle := hnodup k0
      rw [← hunitsP k0] at hle
      have := hcount k0
      simp only [finishedKeyCount] at this
      omega
    have hres2 : dictInsert s.results k0 v = s.results ++ [(k0, v)] :=
      dictInsert_append_of_absent s.results k0 v habs
    refine ⟨?_, ?_, ?_⟩
    · rw [map_set_self_of_eq WUnit.beh s.units i
        { s.units.get ⟨i, h⟩ with phase := Phase.finished } h rfl]
      exact hbeh
    · have hc := countP_set_add (fun u => isFinishedPhase u.phase) s.units i
        { s.units.get ⟨i, h⟩ with phase := Phase.finished } h
      rw [hp] at hc
      simp only [isFinishedPhase_running, isFinishedPhase_finished,
        Bool.false_eq_true, if_false, if_true] at hc
      rw [hres2]
      simp only [finishedCount] at hlen ⊢
      simp only [List.length_append, List.length_singleton]
      omega
    · intro k
      have hc := countP_set_add (fun u => keyMatches k u.beh && isFinishedPhase u.phase)
        s.units i { s.units.get ⟨i, h⟩ with phase := Phase.finished } h
      rw [hp] at hc
      simp only [isFinishedPhase_running, isFinishedPhase_finished, Bool.and_false,
        Bool.and_true, Bool.false_eq_true, if_false] at hc
      have hnew : keyMatches k ({ s.units.get ⟨i, h⟩ with phase := Phase.finished} :
          WUnit α).beh = (k0 == k) := by
        show keyMatches k (s.units.get ⟨i, h⟩).beh = (k0 == k)
        rw [hb]
        simp
      rw [hnew] at hc
      have := hcount k
      rw [hres2]
      simp only [finishedKeyCount] at this ⊢
      simp only [List.map_append, List.countP_append]
      have hsing : (([(k0, v)] : List (String × α)).map Prod.fst).countP
          (fun k2 => k2 == k) = if (k0 == k) = true then 1 else 0 := by
        simp [List.countP_cons]
      rw [hsing]
      omega
  | finishRaise i h t m hp hb =>
    exfalso
    have hmem : (s.units.get ⟨i, h⟩).beh ∈ behs := by
      rw [← hbeh]
      exact List.mem_map.mpr ⟨s.units.get ⟨i, h⟩, List.get_mem s.units i h, rfl⟩
    obtain ⟨k2, v2, heq⟩ := hall _ hmem
    rw [hb] at heq
    cases heq

theorem countP_congr_mem {β : Type} (p q : β → Bool) (l : List β)
    (h : ∀ a ∈ l, p a = q a) : l.countP p = l.countP q := by
  induction l with
  | nil => rfl
  | cons a tl ih =>
    have ha := h a (by simp)
    simp [List.countP_cons, ha, ih (fun a2 h2 => h a2 (by simp [h2]))]

theorem resultsInv_reach {α : Type} {behs : List (Behavior α)} {s0 s : GState α}
    (hall : ∀ b ∈ behs, ∃ k v, b = Behavior.ret k v)
    (hnodup : ∀ k, behs.countP (keyMatches k) ≤ 1)
    (h0 : ResultsInv behs s0) (h : Reach s0 s) : ResultsInv behs s := by
  induction h with
  | refl => exact h0
  | tail hr hstep ih => exact resultsInv_step hall hnodup ih hstep

/-- In any complete execution of a gather system whose units all return,
with pairwise distinct keys, the results dictionary has exactly one entry
per scheduled unit and its key multiset equals the units' key multiset,
regardless of the interleaving taken. -/
theorem gather_results_complete {α : Type} (n : Nat) (behs : List (Behavior α))
    (hall : ∀ b ∈ behs, ∃ k v, b = Behavior.ret k v)
    (hnodup : ∀ k, behs.countP (keyMatches k) ≤ 1)
    (s : GState α) (hreach : Reach (initState n behs) s)
    (hfin : ∀ u ∈ s.units, u.phase = Phase.finished) :
    s.results.length = behs.length ∧
    ∀ k, (s.results.map Prod.fst).countP (fun k2 => k2 == k)
      = behs.countP (keyMatches k) := by
  obtain ⟨hbeh, hlen, hcount⟩ := resultsInv_reach hall hnodup (resultsInv_init n behs) hreach
  have hulen : s.units.length = behs.length := by
    rw [← hbeh, List.length_map]
  constructor
  · rw [hlen, ← hulen]
    simp only [finishedCount]
    apply List.countP_eq_length.mpr
    intro u hu
    rw [hfin u hu]
    simp
  · intro k
    rw [hcount k]
    simp only [finishedKeyCount]
    rw [countP_congr_mem (fun u => keyMatches k u.beh && isFinishedPhase u.phase)
      (fun u => keyMatches k u.beh) s.units
      (by
        intro u hu
        simp only []
        rw [hfin u hu]
        simp)]
    rw [← hbeh, List.countP_map]
    rfl

/-- Concurrent-mode half of the result-map completeness property: for
`arun_on_dataset`, in every complete execution under any interleaving, the
result map has exactly one entry per scheduled example and its key set is
exactly the set of example ids (assuming pairwise distinct ids). -/
theorem arun_result_map_complete {α : Type} (examples : List Example)
    (target : LlmOrChainFactory α) (reps : Nat) (session : String) (n : Nat)
    (s : GState (List (Outcome α)))
    (hids : ∀ k, examples.countP (fun e => e.id == k) ≤ 1)
    (hreach : Reach (initState n (arunBehaviors examples target reps session)) s)
    (hfin : ∀ u ∈ s.units, u.phase = Phase.finished) :
    s.results.length = examples.length ∧
    (∀ k, k ∈ s.results.map Prod.fst ↔ ∃ e ∈ examples, e.id = k) := by
  have hkm : ∀ k, (arunBehaviors examples target reps session).countP (keyMatches k)
      = examples.countP (fun e => e.id == k) := by
    intro k
    simp only [arunBehaviors, List.countP_map]
    exact countP_congr_mem _ _ examples (fun e he => rfl)
  have hall : ∀ b ∈ arunBehaviors examples target reps session,
      ∃ k v, b = Behavior.ret k v := by
    intro b hb
    obtain ⟨e, he, rfl⟩ := List.mem_map.mp hb
    exact ⟨e.id, _, rfl⟩
  have hnodup : ∀ k, (arunBehaviors examples target reps session).countP (keyMatches k)
      ≤ 1 := by
    intro k
    rw [hkm k]
    exact hids k
  obtain ⟨hl, hc⟩ := gather_results_complete n (arunBehaviors examples target reps session)
    hall hnodup s hreach hfin
  constructor
  · rw [hl]
    simp [arunBehaviors]
  · intro k
    have hck := hc k
    rw [hkm k] at hck
    constructor
    · intro hmem
      have hpos : 0 < (s.results.map Prod.fst).countP (fun k2 => k2 == k) := by
        apply List.countP_pos_iff.mpr
        exact ⟨k, hmem, by simp⟩
      rw [hck] at hpos
      obtain ⟨e, he, heq⟩ := List.countP_pos_iff.mp hpos
      exact ⟨e, he, by simpa using heq⟩
    · intro ⟨e, he, heq⟩
      have hpos : 0 < examples.countP (fun e2 => e2.id == k) := by
        apply List.countP_pos_iff.mpr
        exact ⟨e, he, by simp [heq]⟩
      rw [← hck] at hpos
      obtain ⟨k2, hk2, heq2⟩ := List.countP_pos_iff.mp hpos
      have : k2 = k := by simpa using heq2
      rw [← this]
      exact hk2

/-- C1: the claim requires that in both execution modes the result map has
exactly one entry per scheduled example.  The sequential entry point
violates this: its final write to the result map sits outside the example
loop, so for a two-example batch with distinct ids only the last example
survives, a map of size one instead of two.  This theorem evaluates the
embedded `run_on_dataset` at that failing input. -/
theorem run_on_dataset_keeps_only_last :
    (run_on_dataset [exampleA, exampleB]
        (LlmOrChainFactory.languageModel llmAlwaysOk) 1 "s").snd
      = Except.ok [("b", [Outcome.success "ok"])] ∧
    [exampleA, exampleB].length = 2 := ⟨rfl, rfl⟩

/-- C2: in every state reachable under any interleaving of the scheduled
units, the number of units simultaneously holding a checked-out tracer
(past gate acquire and checkout, before checkin) never exceeds the
concurrency level `n`. -/
theorem gather_concurrent_running_bound {α : Type} (n : Nat)
    (behs : List (Behavior α)) (s : GState α)
    (h : Reach (initState n behs) s) : countRunning s.units ≤ n := by
  obtain ⟨e1, e2⟩ := ginv_reach (ginv_init n behs) h
  omega

theorem gather_concurrent_running_bound_witness :
    Reach (initState 2 [demoBehavior]) (initState 2 [demoBehavior]) ∧
    countRunning (initState 2 [demoBehavior]).units ≤ 2 :=
  ⟨Relation.ReflTransGen.refl,
   gather_concurrent_running_bound 2 [demoBehavior] (initState 2 [demoBehavior])
     Relation.ReflTransGen.refl⟩

/-- C3: for every example, target, tracer and repetition count the
per-example evaluator (both the sync and the async variant) returns
normally with a sequence of length exactly `n_repetitions`; the `i`-th slot
is exactly the outcome of the `i`-th repetition — the target's success
payload or the failure marker with the error's message — computed
independently of the failures of earlier repetitions. -/
theorem evaluator_returns_all_repetitions {α : Type} (ex : Example)
    (tr : LangChainTracer) (target : LlmOrChainFactory α) (r c : Nat) :
    ((run_llm_or_chain ex tr target r c).fst.length = r ∧
      (run_llm_or_chain ex tr target r c).fst =
        (List.range r).map
          (fun i => (runOneRep run_llm target ex.inputs (repSeed target c i)).fst)) ∧
    ((arun_llm_or_chain ex tr target r c).fst.length = r ∧
      (arun_llm_or_chain ex tr target r c).fst =
        (List.range r).map
          (fun i => (runOneRep arun_llm target ex.inputs (repSeed target c i)).fst)) ∧
    (∀ o ∈ (run_llm_or_chain ex tr target r c).fst,
        (∃ a, o = Outcome.success a) ∨ ∃ m, o = Outcome.failureMarker m) := by
  refine ⟨⟨?_, ?_⟩, ⟨?_, ?_⟩, ?_⟩
  · simp [run_llm_or_chain_eq]
  · simp [run_llm_or_chain_eq]
  · simp [arun_llm_or_chain_eq]
  · simp [arun_llm_or_chain_eq]
  · intro o _
    cases o with
    | success a => exact Or.inl ⟨a, rfl⟩
    | failureMarker m => exact Or.inr ⟨m, rfl⟩

theorem evaluator_returns_all_repetitions_witness :
    (run_llm_or_chain exampleA demoTracer
        (LlmOrChainFactory.languageModel llmAlwaysOk) 2 0).fst.length = 2 ∧
    ((∃ a, (Outcome.success "ok" : Outcome String) = Outcome.success a) ∨
      ∃ m, (Outcome.success "ok" : Outcome String) = Outcome.failureMarker m) :=
  ⟨(evaluator_returns_all_repetitions exampleA demoTracer
      (LlmOrChainFactory.languageModel llmAlwaysOk) 2 0).1.1,
   (evaluator_returns_all_repetitions exampleA demoTracer
      (LlmOrChainFactory.languageModel llmAlwaysOk) 2 0).2.2
     (Outcome.success "ok") (by decide)⟩

/-- C4: any step that ends a unit's tracer-holding phase — normal return or
raising coroutine alike — puts that tracer back on the queue; and in any
reachable state in which every scheduled unit has finished, the queue again
holds all `n` tracers, so no later unit is starved. -/
theorem tracer_checked_in_on_every_exit {α : Type} (n : Nat)
    (behs : List (Behavior α)) :
    (∀ (s s2 : GState α), Step s s2 →
      ∀ (i : Nat) (h : i < s.units.length) (t : Nat),
        (s.units.get ⟨i, h⟩).phase = Phase.running t →
        ∀ (h2 : i < s2.units.length),
          (s2.units.get ⟨i, h2⟩).phase ≠ Phase.running t → t ∈ s2.queue) ∧
    (∀ s : GState α, Reach (initState n behs) s →
      (∀ u ∈ s.units, u.phase = Phase.finished) → s.queue.length = n) := by
  constructor
  · intro s s2 hstep i h t hp h2 hp2
    exact checkin_on_exit s s2 hstep i h t hp h2 hp2
  · intro s hreach hall
    exact queue_restored n behs s hreach hall

theorem tracer_checked_in_on_every_exit_witness :
    (0 : Nat) ∈ demoDoneState.queue ∧
    (initState 0 ([] : List (Behavior Nat))).queue.length = 0 := by
  constructor
  · exact (tracer_checked_in_on_every_exit 0 ([] : List (Behavior Nat))).1
      demoRunState demoDoneState
      (Step.finishRet demoRunState 0 (by decide) 0 "a" 0 rfl rfl)
      0 (by decide) 0 rfl (by decide) (by decide)
  · exact (tracer_checked_in_on_every_exit 0 ([] : List (Behavior Nat))).2
      (initState 0 []) Relation.ReflTransGen.refl
      (by intro u hu; simp [initState] at hu)

/-- C5: if the tracer builder raises while the pool is being constructed,
the whole concurrent batch call propagates that error, for every list of
scheduled units — so no unit of work runs, nothing is written to the result
map and no partial pool is used. -/
theorem pool_build_failure_aborts_batch {α : Type} (n : Int) (hn : 0 ≤ n)
    (mkTracer : Nat → Except String LangChainTracer) (e : String)
    (hb : buildPool mkTracer 0 n.toNat = Except.error e)
    (behs : List (Behavior α)) :
    gatherStart n mkTracer behs = Except.error e := by
  simp only [gatherStart]
  rw [if_neg (by omega), hb]

theorem pool_build_failure_aborts_batch_witness :
    (0 : Int) ≤ 1 ∧
    buildPool failingAtStart 0 (Int.toNat 1) = Except.error "session down" ∧
    gatherStart 1 failingAtStart [demoBehavior] = Except.error "session down" := by
  refine ⟨by decide, rfl, ?_⟩
  exact pool_build_failure_aborts_batch 1 (by decide) failingAtStart "session down"
    rfl [demoBehavior]

/-- C6 counterexample: with concurrency level 0 the batch start does not
fail with a configuration error — it succeeds, even with a tracer builder
that always raises (showing the builder is never invoked at level 0). -/
theorem gather_zero_concurrency_no_error :
    gatherStart 0 failTracerBuilder [demoBehavior]
      = Except.ok (initState 0 [demoBehavior]) ∧
    isErrorB (gatherStart 0 failTracerBuilder [demoBehavior]) = false := ⟨rfl, rfl⟩

/-- C6 amended: with concurrency level 0 the tracer builder is never
invoked, but no configuration error is raised: start-up succeeds with an
empty pool and zero permits, after which no scheduled unit can ever make a
step (the batch deadlocks rather than failing); a negative concurrency
level raises the semaphore constructor's ValueError at batch start, before
the builder runs. -/
theorem gather_zero_concurrency_behaviour {α : Type} :
    (∀ (mk : Nat → Except String LangChainTracer) (behs : List (Behavior α)),
        gatherStart 0 mk behs = Except.ok (initState 0 behs)) ∧
    (∀ (behs : List (Behavior α)) (s : GState α),
        Reach (initState 0 behs) s → s = initState 0 behs) ∧
    (∀ (n : Int), n < 0 → ∀ (mk : Nat → Except String LangChainTracer)
        (behs : List (Behavior α)),
        gatherStart n mk behs =
          Except.error "ValueError: Semaphore initial value must be at least 0") := by
  refine ⟨?_, ?_, ?_⟩
  · intro mk behs
    rfl
  · exact reach_zero_fixed
  · intro n hn mk behs
    simp only [gatherStart]
    rw [if_pos hn]

theorem gather_zero_concurrency_behaviour_witness :
    gatherStart 0 failTracerBuilder [demoBehavior]
      = Except.ok (initState 0 [demoBehavior]) ∧
    initState 0 [demoBehavior] = initState 0 [demoBehavior] ∧
    gatherStart (-1) failTracerBuilder [demoBehavior] =
      Except.error "ValueError: Semaphore initial value must be at least 0" := by
  refine ⟨?_, ?_, ?_⟩
  · exact gather_zero_concurrency_behaviour.1 failTracerBuilder [demoBehavior]
  · exact gather_zero_concurrency_behaviour.2.1 [demoBehavior]
      (initState 0 [demoBehavior]) Relation.ReflTransGen.refl
  · exact gather_zero_concurrency_behaviour.2.2 (-1) (by decide)
      failTracerBuilder [demoBehavior]

/-- C7: after the evaluator returns (sync or async variant, success or
failure path), the tracer's example tag equals the value it had immediately
before the call, for every initial value of the tag. -/
theorem evaluator_restores_example_tag {α : Type} (ex : Example)
    (tr : LangChainTracer) (target : LlmOrChainFactory α) (r c : Nat) :
    ((run_llm_or_chain ex tr target r c).snd.fst).example_id = tr.example_id ∧
    ((arun_llm_or_chain ex tr target r c).snd.fst).example_id = tr.example_id := by
  constructor <;> simp [run_llm_or_chain_eq, arun_llm_or_chain_eq]

/-- C8: with a factory target, the factory is invoked with a fresh
allocation seed exactly once per repetition (and never outside the
repetition window); provided the factory honours the freshness contract,
each constructed instance is invoked at most once, and only instances
constructed inside the window are ever invoked — no instance is shared
between repetitions. -/
theorem factory_fresh_instance_per_repetition {α : Type} (ex : Example)
    (tr : LangChainTracer) (mk : Nat → Except String (Chain α)) (r c : Nat)
    (hfresh : ∀ k ch, mk k = Except.ok ch → ch.instanceId = k) :
    ((∀ i, i < r →
        ((run_llm_or_chain ex tr (LlmOrChainFactory.chainFactory mk) r c).snd.snd.snd).count
            (Event.factoryCall (c + i)) = 1) ∧
      (∀ k, k < c ∨ c + r ≤ k →
        ((run_llm_or_chain ex tr (LlmOrChainFactory.chainFactory mk) r c).snd.snd.snd).count
            (Event.factoryCall k) = 0) ∧
      (∀ j,
        ((run_llm_or_chain ex tr (LlmOrChainFactory.chainFactory mk) r c).snd.snd.snd).count
            (Event.chainRun j) ≤ 1) ∧
      (∀ j, 0 <
          ((run_llm_or_chain ex tr (LlmOrChainFactory.chainFactory mk) r c).snd.snd.snd).count
            (Event.chainRun j) →
        c ≤ j ∧ j < c + r ∧
          ((run_llm_or_chain ex tr (LlmOrChainFactory.chainFactory mk) r c).snd.snd.snd).count
            (Event.factoryCall j) = 1)) ∧
    (arun_llm_or_chain ex tr (LlmOrChainFactory.chainFactory mk) r c).snd.snd.snd
      = (run_llm_or_chain ex tr (LlmOrChainFactory.chainFactory mk) r c).snd.snd.snd := by
  have hev : (run_llm_or_chain ex tr (LlmOrChainFactory.chainFactory mk) r c).snd.snd.snd
      = ((runLoop run_llm (LlmOrChainFactory.chainFactory mk) ex.inputs r c).snd.snd) := by
    rw [run_llm_or_chain_eq, runLoop_eq]
  refine ⟨⟨?_, ?_, ?_, ?_⟩, ?_⟩
  · intro i hi
    rw [hev, count_factoryCall_runLoop]
    have : c ≤ c + i ∧ c + i < c + r := by omega
    simp [this]
  · intro k hk
    rw [hev, count_factoryCall_runLoop]
    have : ¬(c ≤ k ∧ k < c + r) := by omega
    simp [this]
  · intro j
    have h := count_chainRun_runLoop run_llm mk ex.inputs hfresh r c j
    rw [hev]
    split at h <;> omega
  · intro j hj
    rw [hev] at hj
    have h := count_chainRun_runLoop run_llm mk ex.inputs hfresh r c j
    have hwin : c ≤ j ∧ j < c + r := by
      by_contra hcon
      rw [if_neg hcon] at h
      omega
    refine ⟨hwin.1, hwin.2, ?_⟩
    rw [hev, count_factoryCall_runLoop]
    simp [hwin]
  · rw [run_llm_or_chain_eq, arun_llm_or_chain_eq]
    rfl

theorem factory_fresh_instance_per_repetition_witness :
    (∀ (k : Nat) (ch : Chain Nat), freshChainFactory k = Except.ok ch →
      ch.instanceId = k) ∧
    (∀ i, i < 2 → ((run_llm_or_chain exampleA demoTracer
        (LlmOrChainFactory.chainFactory freshChainFactory) 2 0).snd.snd.snd).count
        (Event.factoryCall (0 + i)) = 1) := by
  have hfresh : ∀ (k : Nat) (ch : Chain Nat), freshChainFactory k = Except.ok ch →
      ch.instanceId = k := by
    intro k ch h
    simp only [freshChainFactory, Except.ok.injEq] at h
    rw [← h]
  exact ⟨hfresh,
    (factory_fresh_instance_per_repetition exampleA demoTracer freshChainFactory 2 0
      hfresh).1.1⟩

/-- C9 counterexample: a payload exposing only a structured message list,
given to a text-completion model, is not dispatched to a chat-style
invocation as the claim requires — the code dispatches on the model's
runtime type first, finds no prompt field, and raises (a failure marker at
the repetition boundary), with no generation call at all. -/
theorem messages_payload_not_chat_dispatched :
    run_llm llmTextOnly messagesOnlyExample.inputs
      = (Except.error "LLM Run must contain prompt key.", []) := rfl

/-- C9 amended: for a direct-model target each repetition routes by the
model's runtime type — a text-completion model with a prompt field goes to
the text-completion invocation, a chat model with a messages field goes to
the chat-style invocation; a missing required field or an unsupported model
type raises immediately, without retry or coercion, and the evaluator
records the failure marker for that repetition while still producing every
later repetition (both sync and async variants). -/
theorem run_llm_dispatch_by_model_type {α : Type} (llm : LanguageModel α)
    (ex : Example) (tr : LangChainTracer) (r c : Nat) :
    (llm.kind = ModelKind.baseLLM →
      (∀ p, ex.inputs.prompt = some p →
        run_llm llm ex.inputs = (llm.genPrompt p, [Event.llmGenerate])) ∧
      (ex.inputs.prompt = none →
        run_llm llm ex.inputs = (Except.error "LLM Run must contain prompt key.", []))) ∧
    (llm.kind = ModelKind.baseChatModel →
      (∀ ms, ex.inputs.messages = some ms →
        run_llm llm ex.inputs = (llm.genMessages ms, [Event.chatGenerate])) ∧
      (ex.inputs.messages = none →
        run_llm llm ex.inputs
          = (Except.error "Chat Model Run must contain messages key.", []))) ∧
    (llm.kind = ModelKind.otherModel →
      run_llm llm ex.inputs = (Except.error "Unsupported LLM type", [])) ∧
    (∀ e evs, run_llm llm ex.inputs = (Except.error e, evs) →
      (run_llm_or_chain ex tr (LlmOrChainFactory.languageModel llm) r c).fst
        = List.replicate r (Outcome.failureMarker e)) ∧
    (llm.kind = ModelKind.baseLLM →
      (∀ p, ex.inputs.prompt = some p →
        arun_llm llm ex.inputs = (llm.genPrompt p, [Event.llmGenerate])) ∧
      (ex.inputs.prompt = none →
        arun_llm llm ex.inputs = (Except.error "LLM Run requires prompt input.", []))) ∧
    (llm.kind = ModelKind.baseChatModel →
      (∀ ms, ex.inputs.messages = some ms →
        arun_llm llm ex.inputs = (llm.genMessages ms, [Event.chatGenerate])) ∧
      (ex.inputs.messages = none →
        arun_llm llm ex.inputs
          = (Except.error "Chat Run requires messages input.", []))) ∧
    (llm.kind = ModelKind.otherModel →
      arun_llm llm ex.inputs = (Except.error "Unsupported LLM type", [])) ∧
    (∀ e evs, arun_llm llm ex.inputs = (Except.error e, evs) →
      (arun_llm_or_chain ex tr (LlmOrChainFactory.languageModel llm) r c).fst
        = List.replicate r (Outcome.failureMarker e)) := by
  refine ⟨?_, ?_, ?_, ?_, ?_, ?_, ?_, ?_⟩
  · intro hk
    constructor
    · intro p hp
      simp [run_llm, hk, hp]
    · intro hp
      simp [run_llm, hk, hp]
  · intro hk
    constructor
    · intro ms hm
      simp [run_llm, hk, hm]
    · intro hm
      simp [run_llm, hk, hm]
  · intro hk
    simp [run_llm, hk]
  · intro e evs he
    exact run_llm_or_chain_llm_error ex tr llm r c e evs he
  · intro hk
    constructor
    · intro p hp
      simp [arun_llm, hk, hp]
    · intro hp
      simp [arun_llm, hk, hp]
  · intro hk
    constructor
    · intro ms hm
      simp [arun_llm, hk, hm]
    · intro hm
      simp [arun_llm, hk, hm]
  · intro hk
    simp [arun_llm, hk]
  · intro e evs he
    exact arun_llm_or_chain_llm_error ex tr llm r c e evs he

theorem run_llm_dispatch_by_model_type_witness :
    llmTextOnly.kind = ModelKind.baseLLM ∧
    messagesOnlyExample.inputs.prompt = none ∧
    run_llm llmTextOnly messagesOnlyExample.inputs
      = (Except.error "LLM Run must contain prompt key.", []) ∧
    (run_llm_or_chain messagesOnlyExample demoTracer
        (LlmOrChainFactory.languageModel llmTextOnly) 3 0).fst
      = List.replicate 3 (Outcome.failureMarker "LLM Run must contain prompt key.") := by
  refine ⟨rfl, rfl, ?_, ?_⟩
  · exact ((run_llm_dispatch_by_model_type llmTextOnly messagesOnlyExample
      demoTracer 3 0).1 rfl).2 rfl
  · exact (run_llm_dispatch_by_model_type llmTextOnly messagesOnlyExample
      demoTracer 3 0).2.2.2.1 "LLM Run must contain prompt key." [] rfl

/-- C10: calling the sequential entry point on a dataset with zero examples
does not return an empty result map: the tracer is built, no example is
evaluated, and the final result-map write references the never-bound loop
variables, raising a name-resolution error. -/
theorem run_on_dataset_empty_raises {α : Type} (target : LlmOrChainFactory α)
    (r : Nat) (session : String) :
    run_on_dataset [] target r session =
      ([SeqEvent.tracerBuilt],
       Except.error "UnboundLocalError: local variable example referenced before assignment")
    := rfl
